import Mathlib

/-!
Verification of the resolution-and-build pipeline of the
`simply-create-playlists-cli` repository, as a shallow embedding of the
TypeScript source (`src/unnamed/part_000`) in Lean.

Strings are modelled by Lean `String` (= lists of `Char`); JavaScript string
operations (`toLowerCase`, regex replacement, `trim`, `includes`) are
translated char-by-char in terms of Unicode code points (`Char.toNat`).
`toLowerCase` is modelled on the ASCII range, which is the only range that
survives `normalize`'s character filter.
-/

deriving instance DecidableEq for Except

namespace SimplyPlaylists

/-- The JavaScript regex class `\s` (and the character set removed by
`String.prototype.trim`): space, the control whitespace characters, NBSP,
OGHAM SPACE MARK, the EN QUAD .. HAIR SPACE block, LINE/PARAGRAPH SEPARATOR,
NARROW NBSP, MEDIUM MATHEMATICAL SPACE, IDEOGRAPHIC SPACE and the BOM. -/
def isJsSpace (c : Char) : Bool :=
  c.toNat == 32 || c.toNat == 9 || c.toNat == 10 || c.toNat == 11 ||
  c.toNat == 12 || c.toNat == 13 || c.toNat == 160 || c.toNat == 5760 ||
  (8192 ≤ c.toNat && c.toNat ≤ 8202) || c.toNat == 8232 || c.toNat == 8233 ||
  c.toNat == 8239 || c.toNat == 8287 || c.toNat == 12288 || c.toNat == 65279

/-- Characters kept by `normalize`'s filter step
(`.replace(/[^a-z0-9\s'-]/g, "")`): lower-case ASCII letters, ASCII digits,
JS whitespace, the straight apostrophe and the hyphen. -/
def isKeptChar (c : Char) : Bool :=
  (97 ≤ c.toNat && c.toNat ≤ 122) || (48 ≤ c.toNat && c.toNat ≤ 57) ||
  isJsSpace c || c.toNat == 39 || c.toNat == 45

/-- A kept character that is not whitespace (letter, digit, apostrophe,
hyphen): the non-space alphabet of `normalize`'s output. -/
def goodChar (c : Char) : Bool := isKeptChar c && !isJsSpace c

/-- `String.prototype.toLowerCase`, char by char, on the ASCII range.
(The full Unicode case map is elided: `normalize` discards every
non-ASCII letter right after lower-casing.) -/
def jsToLower (c : Char) : Char :=
  if 65 ≤ c.toNat && c.toNat ≤ 90 then Char.ofNat (c.toNat + 32) else c

/-- `.replace(/&/g, "and")`, char by char. -/
def ampExpand (c : Char) : List Char :=
  if c == '&' then ['a', 'n', 'd'] else [c]

/-- `.replace(/’/g, "'")`, char by char. -/
def replaceApos (c : Char) : Char :=
  if c == '’' then '\'' else c

/-- `.replace(/\s+/g, " ")`: each maximal run of JS whitespace becomes one
plain space. -/
def collapseWs : List Char → List Char
  | [] => []
  | [c] => if isJsSpace c then [' '] else [c]
  | c :: d :: rest =>
    if isJsSpace c then
      if isJsSpace d then collapseWs (d :: rest)
      else ' ' :: collapseWs (d :: rest)
    else c :: collapseWs (d :: rest)

/-- `String.prototype.trim` on a character list: drop JS whitespace from both
ends. -/
def trimWs (l : List Char) : List Char :=
  ((l.dropWhile isJsSpace).reverse.dropWhile isJsSpace).reverse

/-- `normalize` (source lines 67-75) on a character list: lower-case, `&` to
`and`, curly to straight apostrophe, strip everything outside
`[a-z0-9\s'-]`, collapse whitespace runs, trim. -/
def normalizeL (l : List Char) : List Char :=
  trimWs (collapseWs ((((l.map jsToLower).flatMap ampExpand).map
    replaceApos).filter isKeptChar))

/-- `normalize(s)` from the source. -/
def normalize (s : String) : String := ⟨normalizeL s.data⟩

/-- `String.prototype.trim` on a `String`. -/
def jsTrimStr (s : String) : String := ⟨trimWs s.data⟩

/-- Characterization of `normalize`'s output: every character is a
letter/digit/apostrophe/hyphen or a plain space, no two adjacent characters
are whitespace, and the list neither starts nor ends with whitespace. -/
def NormalOutput (l : List Char) : Prop :=
  (∀ c ∈ l, goodChar c = true ∨ c = ' ') ∧
  List.Chain' (fun a b => ¬(isJsSpace a = true ∧ isJsSpace b = true)) l ∧
  (∀ c, l.head? = some c → isJsSpace c = false) ∧
  (∀ c, l.getLast? = some c → isJsSpace c = false)

/-- `keyFor(artist, album)` (source lines 77-79): the template string
`artist - album` with the *joined* string trimmed as a whole. -/
def keyFor (artist album : String) : String :=
  jsTrimStr (artist ++ " - " ++ album)

/-- The override key as §4.2 of the spec words it: trim artist, trim album,
join with `" - "`. Stated from the spec for comparison with `keyFor`. -/
def specKeyFor (artist album : String) : String :=
  jsTrimStr artist ++ " - " ++ jsTrimStr album

/-- `startsWithL pre l`: `pre` is an initial run of `l` (JS
`String.prototype.startsWith` on character lists). -/
def startsWithL : List Char → List Char → Bool
  | [], _ => true
  | _ :: _, [] => false
  | a :: as, b :: bs => a == b && startsWithL as bs

/-- `includesL sub l`: `sub` occurs contiguously in `l`. -/
def includesL (sub : List Char) : List Char → Bool
  | [] => startsWithL sub []
  | c :: rest => startsWithL sub (c :: rest) || includesL sub rest

/-- JS `hay.includes(sub)`. -/
def strIncludes (hay sub : String) : Bool := includesL sub.data hay.data

/-- `albumIdFromOverride(v)` (source lines 94-97): match
`/^spotify:album:(.+)$/` and return the capture, else `v` unchanged.
`.` does not match a line terminator and `.+` needs at least one
character, hence the guards. -/
def albumIdFromOverride (v : String) : String :=
  if startsWithL "spotify:album:".data v.data
      && (v.data.drop 14).length != 0
      && (v.data.drop 14).all (fun c =>
            c.toNat != 10 && c.toNat != 13 && c.toNat != 8232 && c.toNat != 8233)
  then ⟨v.data.drop 14⟩ else v

/-! ## Album search (the Resolver) -/

/-- A catalog search candidate (`SearchAlbumResult`, source lines 30-35);
`artists` holds the artist names in order. -/
structure SearchAlbumResult where
  id : String
  name : String
  artists : List String
  uri : String
deriving DecidableEq

/-- `it.artists[0]?.name || ""`: the primary artist's name, or `""` when the
candidate has no artists. -/
def primaryArtist (it : SearchAlbumResult) : String := it.artists.headD ""

/-- Stage 1 of `searchAlbum` (source lines 163-170): on the strict-query
results, the first candidate matching normalized album name *and* normalized
primary artist, else the first matching normalized album name, else none. -/
def searchAlbumStrict (artist album : String)
    (items : List SearchAlbumResult) : Option SearchAlbumResult :=
  let targetA := normalize artist
  let targetB := normalize album
  match items.find? (fun it =>
      normalize it.name == targetB && normalize (primaryArtist it) == targetA) with
  | some hit => some hit
  | none => items.find? (fun it => normalize it.name == targetB)

/-- Stage 2 of `searchAlbum` (source lines 185-195): pool the loose-query
results by primary artist (falling back to all of them), then first
name-contains-target, else first target-contains-name, else the first of the
pool, else none. -/
def searchAlbumLoose (artist album : String)
    (items : List SearchAlbumResult) : Option SearchAlbumResult :=
  let targetA := normalize artist
  let targetB := normalize album
  let sameArtist := items.filter (fun it =>
    normalize (primaryArtist it) == targetA)
  let pool := if sameArtist.isEmpty then items else sameArtist
  match pool.find? (fun it => strIncludes (normalize it.name) targetB) with
  | some hit => some hit
  | none =>
    match pool.find? (fun it => strIncludes targetB (normalize it.name)) with
    | some hit => some hit
    | none => pool.head?

/-- `searchAlbum` (source lines 148-196), with the transport abstracted:
`strictItems` are the results of the strict field-scoped query and
`looseItems` those of the free-text query. Stage 1 short-circuits
(`if (strictBest) return strictBest`). -/
def searchAlbum (artist album : String)
    (strictItems looseItems : List SearchAlbumResult) :
    Option SearchAlbumResult :=
  match searchAlbumStrict artist album strictItems with
  | some b => some b
  | none => searchAlbumLoose artist album looseItems

/-- Stage 1 selection exactly as §4.3 of the spec words it: rule (a) first
candidate with normalized album name and normalized primary-artist name both
equal to the targets; rule (b) else first candidate with normalized album
name equal to the target; else no strict match. -/
def stage1Spec (artist album : String)
    (items : List SearchAlbumResult) : Option SearchAlbumResult :=
  match items.find? (fun it =>
      normalize it.name == normalize album &&
      normalize (primaryArtist it) == normalize artist) with
  | some c => some c
  | none => items.find? (fun it => normalize it.name == normalize album)

/-- Stage 2 selection exactly as §4.3 of the spec words it: pool =
same-normalized-artist subset, or the full result set when that subset is
empty; then rule (a) first candidate whose normalized album name contains the
normalized target, (b) else first whose normalized album name is contained in
the normalized target, (c) else the first of the pool, (d) else null. -/
def stage2Spec (artist album : String)
    (items : List SearchAlbumResult) : Option SearchAlbumResult :=
  let pool :=
    let sub := items.filter (fun it =>
      normalize (primaryArtist it) == normalize artist)
    if sub.isEmpty then items else sub
  match pool.find? (fun it =>
      strIncludes (normalize it.name) (normalize album)) with
  | some c => some c
  | none =>
    match pool.find? (fun it =>
        strIncludes (normalize album) (normalize it.name)) with
    | some c => some c
    | none => pool.head?

/-! ## Track expansion (pagination) -/

/-- One page of an album's tracks (`AlbumTracksPage`, source lines 25-28):
`items` holds the page's track uris in order; `next` is the next-page
cursor (the source's next-page URL, modelled as an index into the response
sequence), `none` when exhausted. -/
structure AlbumTracksPage where
  items : List String
  next : Option Nat
deriving DecidableEq

/-- The `while (next)` loop of `getAlbumTracks` (source lines 206-213) over a
transport response sequence `pages`: fetch the page at the cursor, append its
track uris, follow `next`. Returns the accumulated uris together with the
number of page fetches performed (instrumentation of the loop). `fuel` bounds
the iteration count; `getAlbumTracks` supplies `pages.length`, enough for any
forward-chained response sequence. -/
def getAlbumTracksGo (pages : List AlbumTracksPage) :
    Nat → Option Nat → List String × Nat
  | _, none => ([], 0)
  | 0, some _ => ([], 0)
  | fuel + 1, some c =>
    match pages[c]? with
    | none => ([], 0)
    | some page =>
      let rest := getAlbumTracksGo pages fuel page.next
      (page.items ++ rest.1, rest.2 + 1)

/-- `getAlbumTracks` (source lines 198-216): start from the first page
(`?limit=50` URL, cursor 0) and follow `next` until `null`. -/
def getAlbumTracks (pages : List AlbumTracksPage) : List String × Nat :=
  getAlbumTracksGo pages pages.length (some 0)

/-- A well-formed paginated response sequence: page `i` points to page
`i + 1`, and the last page's `next` is `null`. -/
def chainedPages (pages : List AlbumTracksPage) : Prop :=
  ∀ i, (h : i < pages.length) →
    pages[i].next = if i + 1 < pages.length then some (i + 1) else none

instance (pages : List AlbumTracksPage) : Decidable (chainedPages pages) := by
  unfold chainedPages; infer_instance

/-- Modelled from the spec: the catalog transport's paginated album-tracks
endpoint (§6 `getTracks`), which is not part of this repository. Serves the
album's `tracks` in consecutive pages of at most `pageSize`, each page
pointing to the next via its cursor. `fuel` is an iteration bound. -/
def mkPagesGo (pageSize : Nat) : Nat → List String → Nat → List AlbumTracksPage
  | 0, _, _ => []
  | fuel + 1, l, i =>
    if l.length ≤ pageSize then [{ items := l, next := none }]
    else { items := l.take pageSize, next := some (i + 1) } ::
      mkPagesGo pageSize fuel (l.drop pageSize) (i + 1)

/-- Modelled from the spec: the full paginated response sequence the
transport produces for an album with track list `tracks` at page size
`pageSize`. An album with no tracks still yields one page with empty
`items`. -/
def mkPages (pageSize : Nat) (tracks : List String) : List AlbumTracksPage :=
  mkPagesGo pageSize (tracks.length + 1) tracks 0

/-! ## Batch insertion -/

/-- The chunking of `addTracks` (source lines 219-231): the successive values
of `uris.slice(i, i + 100)` for `i = 0, 100, 200, ...` — one insertion
request body per chunk, in order. -/
def addTracksCalls : List String → List (List String)
  | [] => []
  | u :: us => (u :: us).take 100 :: addTracksCalls ((u :: us).drop 100)
termination_by l => l.length
decreasing_by simp; omega

/-! ## The run pipeline (Orchestrator) -/

/-- One parsed list entry (§3 Entry / MissRecord). -/
structure Entry where
  artist : String
  album : String
deriving DecidableEq

/-- A mutating catalog call issued by the run: playlist creation or a
track-insertion request. (Read-only calls — search, track pages, profile —
are modelled through the environment's oracles instead.) -/
inductive ApiCall where
  | createPlaylist (name : String)
  | insertTracks (playlistId : String) (uris : List String)
deriving DecidableEq

/-- The per-entry outcome the run prints (source lines 353-401):
`SKIP (malformed)`, `MISS`, `WOULD ADD (n tracks)`, `ERROR (no playlistId)`
or `OK (n tracks)`. -/
inductive Outcome where
  | skipMalformed
  | missed
  | wouldAdd (n : Nat)
  | errorNoPlaylist
  | okAdded (n : Nat)
deriving DecidableEq

/-- The report written by `writeJson(missesPath, ...)` (source lines
404-410). `generatedAt` (wall-clock time) is elided. -/
structure RunReport where
  playlistName : String
  listPath : String
  dryRun : Bool
  misses : List Entry
deriving DecidableEq

/-- The run options the pipeline logic depends on. -/
structure RunOptions where
  listPath : String
  playlistName : String
  dryRun : Bool

/-- The run's environment: the override map and oracles for every outbound
catalog call. A call that would throw (`spotifyFetch` on a non-success
status, source lines 115-118) is an `Except.error` carrying the message. -/
structure RunEnv where
  overrides : List (String × String)
  search : String → String → Except String (Option SearchAlbumResult)
  pages : String → Except String (List AlbumTracksPage)
  me : Except String String
  create : String → Except String String
  insert : String → List String → Except String Unit

/-- `overrides[key]` filtered through the `if (override)` truthiness test
(source lines 366-367): a key mapped to the empty string behaves like an
absent key. -/
def overrideVal (m : List (String × String)) (k : String) : Option String :=
  match m.lookup k with
  | some v => if v == "" then none else some v
  | none => none

/-- The `override > search` resolution block of the run loop (source lines
363-378): a truthy override short-circuits; otherwise the search oracle is
consulted (`none` = no candidate). -/
def resolveAlbumId (env : RunEnv) (artist album : String) :
    Except String (Option String) :=
  match overrideVal env.overrides (keyFor artist album) with
  | some v => .ok (some (albumIdFromOverride v))
  | none =>
    match env.search artist album with
    | .error m => .error m
    | .ok none => .ok none
    | .ok (some found) => .ok (some found.id)

/-- How a well-formed entry was resolved: pinned by an override, found by the
resolver, or a miss (§3's invariant vocabulary). -/
inductive Resolution where
  | overrideHit (id : String)
  | resolverHit (id : String)
  | miss
deriving DecidableEq

/-- Classification of a well-formed entry's resolution, folding in the
`if (!albumId)` guard (source line 380): a search candidate with an empty id
is a miss. -/
def classify (env : RunEnv) (artist album : String) :
    Except String Resolution :=
  match overrideVal env.overrides (keyFor artist album) with
  | some v => .ok (.overrideHit (albumIdFromOverride v))
  | none =>
    match env.search artist album with
    | .error m => .error m
    | .ok none => .ok .miss
    | .ok (some f) => .ok (if f.id == "" then .miss else .resolverHit f.id)

/-- The sequential chunk loop of `addTracks` (source lines 219-231): issue
one insertion call per chunk; a failing chunk stops the loop and propagates
the error. Returns the insertion calls actually issued. -/
def runChunks (env : RunEnv) (pid : String) :
    List (List String) → List ApiCall × Except String Unit
  | [] => ([], .ok ())
  | c :: rest =>
    match env.insert pid c with
    | .error m => ([ApiCall.insertTracks pid c], .error m)
    | .ok _ =>
      let r := runChunks env pid rest
      (ApiCall.insertTracks pid c :: r.1, r.2)

/-- One iteration of the run's entry loop (source lines 349-401): malformed
check, override-or-search resolution, the `if (!albumId)` guard, track
expansion, then dry-run short-circuit / missing-playlist guard / batch
insertion. Returns the mutating calls issued and, unless a catalog call
threw, the printed outcome plus the entries pushed onto `misses`. -/
def processEntry (env : RunEnv) (dryRun : Bool) (playlistId : Option String)
    (e : Entry) : List ApiCall × Except String (Outcome × List Entry) :=
  if e.artist == "" || e.album == "" then
    ([], .ok (.skipMalformed, [e]))
  else
    match resolveAlbumId env e.artist e.album with
    | .error m => ([], .error m)
    | .ok none => ([], .ok (.missed, [e]))
    | .ok (some albumId) =>
      if albumId == "" then ([], .ok (.missed, [e]))
      else
        match env.pages albumId with
        | .error m => ([], .error m)
        | .ok pgs =>
          let trackUris := (getAlbumTracks pgs).1
          if dryRun then ([], .ok (.wouldAdd trackUris.length, []))
          else
            match playlistId with
            | none => ([], .ok (.errorNoPlaylist, [e]))
            | some pid =>
              match runChunks env pid (addTracksCalls trackUris) with
              | (calls, .error m) => (calls, .error m)
              | (calls, .ok _) => (calls, .ok (.okAdded trackUris.length, []))

/-- The run's entry loop (source lines 349-402): entries strictly in order,
one at a time; a thrown error aborts the remainder. Returns the mutating
calls issued and, on a clean pass, the accumulated misses and outcomes. -/
def runEntries (env : RunEnv) (dryRun : Bool) (playlistId : Option String) :
    List Entry → List ApiCall × Except String (List Entry × List Outcome)
  | [] => ([], .ok ([], []))
  | e :: rest =>
    match processEntry env dryRun playlistId e with
    | (calls, .error m) => (calls, .error m)
    | (calls, .ok (outcome, miss)) =>
      match runEntries env dryRun playlistId rest with
      | (calls', .error m) => (calls ++ calls', .error m)
      | (calls', .ok (misses, outcomes)) =>
        (calls ++ calls', .ok (miss ++ misses, outcome :: outcomes))

/-- The pre-loop setup (source lines 325-347): in dry-run mode no playlist is
created (`playlistId` stays `null`); otherwise `getMe` then `createPlaylist`,
either failure aborting the run. -/
def runSetup (env : RunEnv) (opts : RunOptions) :
    List ApiCall × Except String (Option String) :=
  if opts.dryRun then ([], .ok none)
  else
    match env.me with
    | .error m => ([], .error m)
    | .ok _ =>
      match env.create opts.playlistName with
      | .error m => ([], .error m)
      | .ok pid => ([ApiCall.createPlaylist opts.playlistName], .ok (some pid))

/-- The whole run after auth (source lines 325-411): setup, the entry loop,
then — only when nothing threw — the report write. An `Except.error` result
means the `catch` block ran and the report file was never written. -/
def runModel (env : RunEnv) (opts : RunOptions) (entries : List Entry) :
    List ApiCall × Except String (RunReport × List Outcome) :=
  match runSetup env opts with
  | (calls, .error m) => (calls, .error m)
  | (calls, .ok playlistId) =>
    match runEntries env opts.dryRun playlistId entries with
    | (calls', .error m) => (calls ++ calls', .error m)
    | (calls', .ok (misses, outcomes)) =>
      (calls ++ calls',
        .ok ({ playlistName := opts.playlistName, listPath := opts.listPath,
               dryRun := opts.dryRun, misses := misses }, outcomes))

/-! ## Test fixtures for witnesses and counterexamples -/

/-- Fixture: an environment whose override map carries an empty-string value
for `"A - B"` and whose search finds nothing. -/
def envNoFind : RunEnv :=
  { overrides := [("A - B", "")]
    search := fun _ _ => .ok none
    pages := fun _ => .ok [{ items := [], next := none }]
    me := .ok "user1"
    create := fun _ => .ok "pl1"
    insert := fun _ _ => .ok () }

/-- Fixture: like `envNoFind` but the search finds an album with an empty
track list. -/
def envFind : RunEnv :=
  { envNoFind with
    search := fun _ _ =>
      .ok (some { id := "alb1", name := "B", artists := ["A"], uri := "spotify:album:alb1" }) }

/-- Fixture: like `envNoFind` but with a URI-style override pinned for
`"A - B"`. -/
def envOverridden : RunEnv :=
  { envNoFind with overrides := [("A - B", "spotify:album:zed")] }

/-- Fixture: like `envNoFind` but the search throws (non-success status). -/
def envErrSearch : RunEnv :=
  { envNoFind with search := fun _ _ => .error "Spotify API error 500" }

/-! ## Helper lemmas -/

theorem strData_append (a b : String) : (a ++ b).data = a.data ++ b.data := by
  cases a; cases b; rfl

theorem strMk_data (s : String) : (⟨s.data⟩ : String) = s := by
  cases s; rfl

theorem strData_ne_nil {s : String} (h : s ≠ "") : s.data ≠ [] := by
  intro hd
  apply h
  cases s with
  | mk l => cases hd; rfl

theorem dropWhile_cons_of_neg {p : Char → Bool} {c : Char} {t : List Char}
    (hc : p c = false) : (c :: t).dropWhile p = c :: t := by
  rw [List.dropWhile_cons, hc]; simp

theorem dropWhile_length_le (p : Char → Bool) (l : List Char) :
    (l.dropWhile p).length ≤ l.length :=
  (List.dropWhile_suffix p).sublist.length_le

theorem trim_fix_front {l : List Char} (h : trimWs l = l) :
    l.dropWhile isJsSpace = l := by
  have h2 : (trimWs l).length ≤ (l.dropWhile isJsSpace).length := by
    unfold trimWs
    rw [List.length_reverse]
    calc ((l.dropWhile isJsSpace).reverse.dropWhile isJsSpace).length
        ≤ (l.dropWhile isJsSpace).reverse.length :=
          dropWhile_length_le _ _
      _ = (l.dropWhile isJsSpace).length := List.length_reverse _
  have h3 : (l.dropWhile isJsSpace).length ≤ l.length := dropWhile_length_le _ _
  have h4 : (trimWs l).length = l.length := by rw [h]
  exact (List.dropWhile_suffix _).sublist.eq_of_length (by omega)

theorem trim_fix_back {l : List Char} (h : trimWs l = l) :
    l.reverse.dropWhile isJsSpace = l.reverse := by
  have hf := trim_fix_front h
  unfold trimWs at h
  rw [hf] at h
  have h2 := congrArg List.reverse h
  rwa [List.reverse_reverse] at h2

theorem head_not_space_of_dropWhile_fix {l : List Char}
    (h : l.dropWhile isJsSpace = l) :
    ∀ c, l.head? = some c → isJsSpace c = false := by
  intro c hc
  cases l with
  | nil => simp at hc
  | cons a t =>
    have hac : a = c := by simpa using hc
    subst hac
    by_contra hns
    have hct : isJsSpace a = true := by simpa using hns
    rw [List.dropWhile_cons, hct] at h
    simp only [if_true] at h
    have hle := dropWhile_length_le isJsSpace t
    rw [h] at hle
    simp at hle

/-! ## C1 and C2: the two-stage resolver selection -/

/-- C1: for every (artist, album) target and every list of strict-search
candidates, Stage 1 of `searchAlbum` selects exactly as the spec's rules
(a)/(b) describe (`stage1Spec`): the first candidate whose normalized album
name and normalized primary-artist name both match is returned; otherwise the
first candidate whose normalized album name matches; otherwise Stage 1 yields
nothing and the loose Stage 2 is consulted. -/
theorem C1_stage1_selection (artist album : String)
    (strictItems looseItems : List SearchAlbumResult) :
    (searchAlbum artist album strictItems looseItems =
      match stage1Spec artist album strictItems with
      | some c => some c
      | none => searchAlbumLoose artist album looseItems) ∧
    (∀ c, strictItems.find? (fun it =>
          normalize it.name == normalize album &&
          normalize (primaryArtist it) == normalize artist) = some c →
      searchAlbum artist album strictItems looseItems = some c) ∧
    (strictItems.find? (fun it =>
          normalize it.name == normalize album &&
          normalize (primaryArtist it) == normalize artist) = none →
      ∀ c, strictItems.find? (fun it =>
          normalize it.name == normalize album) = some c →
        searchAlbum artist album strictItems looseItems = some c) ∧
    (strictItems.find? (fun it =>
          normalize it.name == normalize album &&
          normalize (primaryArtist it) == normalize artist) = none →
      strictItems.find? (fun it =>
          normalize it.name == normalize album) = none →
      searchAlbum artist album strictItems looseItems =
        searchAlbumLoose artist album looseItems) := by
  refine ⟨rfl, ?_, ?_, ?_⟩
  · intro c hc
    simp only [searchAlbum, searchAlbumStrict]
    rw [hc]
  · intro h1 c hc
    simp only [searchAlbum, searchAlbumStrict]
    rw [h1, hc]
  · intro h1 h2
    simp only [searchAlbum, searchAlbumStrict]
    rw [h1, h2]

/-- Witness for C1 at a concrete input: an exact-name, exact-artist
candidate is selected by rule (a). -/
theorem C1_witness :
    searchAlbum "X" "Heartbreaker"
        [{ id := "h1", name := "Heartbreaker", artists := ["X"], uri := "u" }]
        [] =
      some { id := "h1", name := "Heartbreaker", artists := ["X"], uri := "u" } :=
  (C1_stage1_selection "X" "Heartbreaker"
      [{ id := "h1", name := "Heartbreaker", artists := ["X"], uri := "u" }]
      []).2.1
    { id := "h1", name := "Heartbreaker", artists := ["X"], uri := "u" }
    (by decide)

/-- C2: whenever Stage 1 yields no result, `searchAlbum` returns exactly the
spec's Stage 2 selection (`stage2Spec`): the same-normalized-artist pool
(full result set when empty), first name-contains-target, else first
target-contains-name, else the pool's first element, else null. -/
theorem C2_stage2_selection (artist album : String)
    (strictItems looseItems : List SearchAlbumResult)
    (h : searchAlbumStrict artist album strictItems = none) :
    searchAlbum artist album strictItems looseItems =
      stage2Spec artist album looseItems := by
  unfold searchAlbum
  rw [h]
  rfl

/-- Witness for C2 at a concrete input: strict search over no candidates
yields no result, and the loose stage picks the deluxe-edition candidate by
substring containment. -/
theorem C2_witness :
    searchAlbumStrict "X" "Heartbreaker" [] = none ∧
    searchAlbum "X" "Heartbreaker" []
        [{ id := "d1", name := "Heartbreaker (Deluxe)", artists := ["X"], uri := "u1" }] =
      stage2Spec "X" "Heartbreaker"
        [{ id := "d1", name := "Heartbreaker (Deluxe)", artists := ["X"], uri := "u1" }] :=
  ⟨by decide, C2_stage2_selection "X" "Heartbreaker" _ _ (by decide)⟩

/-! ## C5: batch chunking -/

theorem addTracksCalls_cons (l : List String) (h : l ≠ []) :
    addTracksCalls l = l.take 100 :: addTracksCalls (l.drop 100) := by
  cases l with
  | nil => exact absurd rfl h
  | cons u us => rw [addTracksCalls]

theorem addTracksCalls_flatten (l : List String) :
    (addTracksCalls l).flatten = l := by
  induction l using addTracksCalls.induct with
  | case1 => simp [addTracksCalls]
  | case2 u us ih =>
    rw [addTracksCalls_cons _ (by simp), List.flatten_cons]
    rw [ih, List.take_append_drop]

theorem addTracksCalls_bounds (l : List String) :
    ∀ c ∈ addTracksCalls l, c ≠ [] ∧ c.length ≤ 100 := by
  induction l using addTracksCalls.induct with
  | case1 => intro c hc; simp [addTracksCalls] at hc
  | case2 u us ih =>
    intro c hc
    rw [addTracksCalls_cons _ (by simp)] at hc
    rcases List.mem_cons.mp hc with hc | hc
    · subst hc
      constructor
      · simp
      · rw [List.length_take]; omega
    · exact ih c hc

theorem addTracksCalls_sizes_250 (l : List String) (h : l.length = 250) :
    (addTracksCalls l).map List.length = [100, 100, 50] := by
  have h1 : l ≠ [] := by intro hn; rw [hn] at h; simp at h
  rw [addTracksCalls_cons l h1]
  have h2 : (l.drop 100).length = 150 := by rw [List.length_drop, h]
  rw [addTracksCalls_cons (l.drop 100) (by intro hn; rw [hn] at h2; simp at h2)]
  have h3 : ((l.drop 100).drop 100).length = 50 := by
    rw [List.length_drop, h2]
  rw [addTracksCalls_cons ((l.drop 100).drop 100)
    (by intro hn; rw [hn] at h3; simp at h3)]
  have h4 : (((l.drop 100).drop 100).drop 100) = [] := by
    apply List.eq_nil_of_length_eq_zero
    rw [List.length_drop, h3]
  rw [h4]
  simp only [addTracksCalls, List.map_cons, List.map_nil, List.length_take]
  rw [h, h2, h3]
  decide

theorem runChunks_calls (env : RunEnv) (pid : String)
    (hok : ∀ c, env.insert pid c = .ok ()) :
    ∀ chunks, (runChunks env pid chunks).1 =
      chunks.map (ApiCall.insertTracks pid) := by
  intro chunks
  induction chunks with
  | nil => rfl
  | cons c rest ih =>
    rw [runChunks, hok c, List.map_cons, ← ih]

/-- C5: `addTracksCalls` partitions the track identifiers into consecutive,
non-empty chunks of at most 100, in order; the sequential chunk loop issues
exactly one insertion call per chunk (when no call fails); and 250
identifiers yield chunk sizes 100, 100, 50 in that order. -/
theorem C5_chunking (uris : List String) :
    (addTracksCalls uris).flatten = uris ∧
    (∀ c ∈ addTracksCalls uris, c ≠ [] ∧ c.length ≤ 100) ∧
    (∀ (env : RunEnv) (pid : String),
      (∀ c, env.insert pid c = .ok ()) →
      (runChunks env pid (addTracksCalls uris)).1 =
        (addTracksCalls uris).map (ApiCall.insertTracks pid)) ∧
    (uris.length = 250 →
      (addTracksCalls uris).map List.length = [100, 100, 50]) := by
  exact ⟨addTracksCalls_flatten uris, addTracksCalls_bounds uris,
    fun env pid hok => runChunks_calls env pid hok (addTracksCalls uris),
    addTracksCalls_sizes_250 uris⟩

/-- Witness for C5 at a concrete input: 250 identifiers produce chunk sizes
100, 100, 50. -/
theorem C5_witness :
    (addTracksCalls (List.replicate 250 "t")).map List.length =
      [100, 100, 50] :=
  (C5_chunking (List.replicate 250 "t")).2.2.2 (by rw [List.length_replicate])

/-! ## C7: the override lookup key -/

/-- C7 counterexample: `keyFor` trims the joined string as a whole, so an
artist with trailing whitespace keeps its inner spaces, while the spec's
trim-each-then-join recipe (`specKeyFor`) collapses them: the two disagree
at `("A ", "B")`. -/
theorem C7_counterexample :
    keyFor "A " "B" = "A  - B" ∧ specKeyFor "A " "B" = "A - B" ∧
    keyFor "A " "B" ≠ specKeyFor "A " "B" := by
  refine ⟨by decide, by decide, by decide⟩

/-- C7 (amended): for artist and album strings that are already trimmed and
non-empty — which is what the list parser hands the run loop for every
well-formed entry — `keyFor`'s trim-the-joined-string key coincides with the
spec's trim-each-then-join key. -/
theorem C7_key_amended (a b : String) (ha : jsTrimStr a = a)
    (hb : jsTrimStr b = b) (ha' : a ≠ "") (hb' : b ≠ "") :
    keyFor a b = specKeyFor a b := by
  have hta : trimWs a.data = a.data := by
    have := congrArg String.data ha; simpa [jsTrimStr] using this
  have htb : trimWs b.data = b.data := by
    have := congrArg String.data hb; simpa [jsTrimStr] using this
  have hna : a.data ≠ [] := strData_ne_nil ha'
  have hnb : b.data ≠ [] := strData_ne_nil hb'
  unfold keyFor specKeyFor
  rw [ha, hb]
  -- it remains to show the joined string is already trimmed
  suffices hL : trimWs (a ++ " - " ++ b).data = (a ++ " - " ++ b).data by
    rw [jsTrimStr, hL, strMk_data]
  have hdata : (a ++ " - " ++ b).data = a.data ++ (' ' :: '-' :: ' ' :: b.data) := by
    rw [strData_append, strData_append]
    simp
  rw [hdata]
  -- front: the first character is the head of `a.data`, not whitespace
  have hfront : (a.data ++ (' ' :: '-' :: ' ' :: b.data)).dropWhile isJsSpace =
      a.data ++ (' ' :: '-' :: ' ' :: b.data) := by
    cases hc : a.data with
    | nil => exact absurd hc hna
    | cons c t =>
      rw [List.cons_append]
      apply dropWhile_cons_of_neg
      exact head_not_space_of_dropWhile_fix (trim_fix_front hta) c
        (by rw [hc]; rfl)
  -- back: the last character is the last of `b.data`, not whitespace
  have hback : (a.data ++ (' ' :: '-' :: ' ' :: b.data)).reverse.dropWhile isJsSpace =
      (a.data ++ (' ' :: '-' :: ' ' :: b.data)).reverse := by
    have hrb := trim_fix_back htb
    cases hc : b.data.reverse with
    | nil =>
      exact absurd (by simpa using congrArg List.reverse hc) hnb
    | cons c t =>
      have hrw : (a.data ++ (' ' :: '-' :: ' ' :: b.data)).reverse =
          c :: (t ++ (' ' :: '-' :: ' ' :: a.data.reverse)) := by
        simp [List.reverse_append, hc]
      rw [hrw]
      apply dropWhile_cons_of_neg
      exact head_not_space_of_dropWhile_fix hrb c (by rw [hc]; rfl)
  unfold trimWs
  rw [hfront, hback, List.reverse_reverse]

/-- Witness for C7's amended statement at a concrete trimmed input. -/
theorem C7_witness : keyFor "A" "B" = specKeyFor "A" "B" :=
  C7_key_amended "A" "B" (by decide) (by decide) (by decide) (by decide)

/-! ## C3: overrides short-circuit search -/

/-- C3 counterexample: a key that is *present* in the override map but maps
to the empty string does not short-circuit search — `if (override)` treats it
as absent, so the entry's outcome depends on what the search returns. With
the key `"A - B"` present, swapping the search oracle changes the result. -/
theorem C3_counterexample :
    envNoFind.overrides.lookup (keyFor "A" "B") = some "" ∧
    processEntry envNoFind true none ⟨"A", "B"⟩ ≠
      processEntry envFind true none ⟨"A", "B"⟩ := by
  constructor
  · decide
  · decide

/-- C3 (amended): for every well-formed entry whose key maps to a *non-empty*
string in the override map, search is never invoked — the run's behavior on
the entry is independent of the search oracle — and the entry's resolution is
classified as an override hit (hence, the three outcomes override hit /
resolver hit / miss being mutually exclusive constructors, exactly one
applies). -/
theorem C3_override_short_circuit (env : RunEnv)
    (s₁ s₂ : String → String → Except String (Option SearchAlbumResult))
    (e : Entry) (v : String) (d : Bool) (pid : Option String)
    (ha : e.artist ≠ "") (hb : e.album ≠ "")
    (hov : overrideVal env.overrides (keyFor e.artist e.album) = some v) :
    processEntry { env with search := s₁ } d pid e =
      processEntry { env with search := s₂ } d pid e ∧
    classify { env with search := s₁ } e.artist e.album =
      .ok (.overrideHit (albumIdFromOverride v)) := by
  have hrc : runChunks { env with search := s₁ } =
      runChunks { env with search := s₂ } := by
    funext pid chunks
    induction chunks with
    | nil => rfl
    | cons c rest ih => rw [runChunks, runChunks, ih]
  constructor
  · simp only [processEntry, resolveAlbumId, hov, hrc]
  · simp only [classify, hov]

/-- Witness for C3's amended statement at a concrete input: a pinned
URI-style override resolves to its bare id regardless of the search. -/
theorem C3_witness :
    processEntry { envOverridden with search := fun _ _ => .ok none }
        true none ⟨"A", "B"⟩ =
      processEntry { envOverridden with search := fun _ _ => .error "boom" }
        true none ⟨"A", "B"⟩ ∧
    classify { envOverridden with search := fun _ _ => .ok none } "A" "B" =
      .ok (.overrideHit "zed") := by
  have h := C3_override_short_circuit envOverridden (fun _ _ => .ok none)
    (fun _ _ => .error "boom") ⟨"A", "B"⟩ "spotify:album:zed" true none
    (by decide) (by decide) (by decide)
  refine ⟨h.1, ?_⟩
  rw [h.2]
  decide

/-! ## C8: transport errors abort the run -/

/-- C8: a catalog call that returns a non-success status aborts the run: a
failing entry makes the loop return that entry's error without touching the
remaining entries (the result is independent of `rest`), and an erroring loop
makes the whole run end in the error — the model's `.error` result, in which
no report is produced. -/
theorem C8_error_aborts :
    (∀ (env : RunEnv) (d : Bool) (pid : Option String) (e : Entry)
        (rest : List Entry) (calls : List ApiCall) (m : String),
      processEntry env d pid e = (calls, .error m) →
      runEntries env d pid (e :: rest) = (calls, .error m)) ∧
    (∀ (env : RunEnv) (opts : RunOptions) (entries : List Entry)
        (sc : List ApiCall) (pid : Option String) (lc : List ApiCall)
        (m : String),
      runSetup env opts = (sc, .ok pid) →
      runEntries env opts.dryRun pid entries = (lc, .error m) →
      runModel env opts entries = (sc ++ lc, .error m)) := by
  constructor
  · intro env d pid e rest calls m h
    rw [runEntries, h]
  · intro env opts entries sc pid lc m hs hl
    rw [runModel, hs]
    simp only [hl]

/-- Witness for C8 at a concrete input: a 500 from search on the first entry
stops the loop before the second entry and ends the run in the error. -/
theorem C8_witness :
    runEntries envErrSearch false (some "pl1") [⟨"A", "B"⟩, ⟨"C", "D"⟩] =
      ([], .error "Spotify API error 500") ∧
    runModel envErrSearch
        { listPath := "l.txt", playlistName := "P", dryRun := false }
        [⟨"A", "B"⟩] =
      ([ApiCall.createPlaylist "P"], .error "Spotify API error 500") := by
  constructor
  · exact C8_error_aborts.1 envErrSearch false (some "pl1") ⟨"A", "B"⟩
      [⟨"C", "D"⟩] [] "Spotify API error 500" (by decide)
  · have h := C8_error_aborts.2 envErrSearch
      { listPath := "l.txt", playlistName := "P", dryRun := false }
      [⟨"A", "B"⟩] [ApiCall.createPlaylist "P"] (some "pl1") []
      "Spotify API error 500" (by decide) (by decide)
    simpa using h

/-! ## C10: an album with no tracks still counts as OK -/

/-- C10: in live mode, a well-formed entry that resolves to an album whose
expanded track list is empty issues zero insertion calls, is reported
`OK (0 tracks)`, and contributes nothing to the misses list. -/
theorem C10_empty_album_ok (env : RunEnv) (e : Entry) (pid : String)
    (aid : String) (pgs : List AlbumTracksPage)
    (ha : e.artist ≠ "") (hb : e.album ≠ "")
    (hres : resolveAlbumId env e.artist e.album = .ok (some aid))
    (haid : aid ≠ "")
    (hp : env.pages aid = .ok pgs)
    (htr : (getAlbumTracks pgs).1 = []) :
    processEntry env false (some pid) e = ([], .ok (.okAdded 0, [])) := by
  have hwf : (e.artist == "" || e.album == "") = false := by simp [ha, hb]
  have haid' : (aid == "") = false := by simp [haid]
  simp only [processEntry, hwf, Bool.false_eq_true, if_false, hres, haid',
    hp, htr]
  simp [addTracksCalls, runChunks]

/-- Witness for C10 at a concrete input: `envFind` resolves `"A - B"` to an
album whose single track page is empty. -/
theorem C10_witness :
    processEntry envFind false (some "pl1") ⟨"A", "B"⟩ =
      ([], .ok (.okAdded 0, [])) :=
  C10_empty_album_ok envFind ⟨"A", "B"⟩ "pl1" "alb1"
    [{ items := [], next := none }]
    (by decide) (by decide) (by decide) (by decide) (by decide) (by decide)

/-! ## C4: dry-run issues no mutating calls -/

theorem processEntry_dry_calls (env : RunEnv) (pid : Option String)
    (e : Entry) : (processEntry env true pid e).1 = [] := by
  unfold processEntry
  repeat' split
  all_goals simp_all

theorem runEntries_dry_calls (env : RunEnv) (pid : Option String) :
    ∀ es, (runEntries env true pid es).1 = [] := by
  intro es
  induction es with
  | nil => rfl
  | cons e rest ih =>
    have hpe := processEntry_dry_calls env pid e
    rw [runEntries]
    rcases h : processEntry env true pid e with ⟨calls, r⟩
    rw [h] at hpe
    simp only at hpe
    subst hpe
    cases r with
    | error m => simp
    | ok p =>
      rcases h2 : runEntries env true pid rest with ⟨calls', r2⟩
      rw [h2] at ih
      simp only at ih
      subst ih
      rcases p with ⟨outcome, miss⟩
      cases r2 with
      | error m => simp
      | ok q => rcases q with ⟨misses, outs⟩; simp

/-- C4: in dry-run mode the run issues no `createPlaylist` call and no
track-insertion call (the mutating-call trace is empty), the written report's
`dryRun` field is `true`, and every well-formed entry that resolves to an
album is processed to a `WOULD ADD` outcome carrying its track count, with no
miss recorded for it. -/
theorem C4_dry_run (env : RunEnv) (opts : RunOptions) (entries : List Entry)
    (hdry : opts.dryRun = true) :
    (runModel env opts entries).1 = [] ∧
    (∀ rep outs, (runModel env opts entries).2 = .ok (rep, outs) →
      rep.dryRun = true) ∧
    (∀ (e : Entry) (aid : String) (pgs : List AlbumTracksPage),
      e.artist ≠ "" → e.album ≠ "" →
      resolveAlbumId env e.artist e.album = .ok (some aid) → aid ≠ "" →
      env.pages aid = .ok pgs →
      processEntry env true none e =
        ([], .ok (.wouldAdd (getAlbumTracks pgs).1.length, []))) := by
  refine ⟨?_, ?_, ?_⟩
  · rw [runModel, runSetup, hdry]
    simp only [if_true]
    have hre := runEntries_dry_calls env none entries
    rcases h : runEntries env true none entries with ⟨calls, r⟩
    rw [h] at hre
    simp only at hre
    subst hre
    cases r with
    | error m => simp
    | ok p => rcases p with ⟨misses, outs⟩; simp
  · intro rep outs hok
    rw [runModel, runSetup, hdry] at hok
    simp only [if_true] at hok
    rcases h : runEntries env true none entries with ⟨calls, r⟩
    rw [h] at hok
    cases r with
    | error m => simp at hok
    | ok p =>
      rcases p with ⟨misses, outs'⟩
      simp only [Except.ok.injEq, Prod.mk.injEq] at hok
      rw [← hok.1]
  · intro e aid pgs ha hb hres haid hp
    have hwf : (e.artist == "" || e.album == "") = false := by simp [ha, hb]
    have haid' : (aid == "") = false := by simp [haid]
    simp only [processEntry, hwf, Bool.false_eq_true, if_false, hres, haid',
      hp, if_true]

/-- Witness for C4 at a concrete input: a one-entry dry run issues no
mutating call and reports the resolvable entry as `WOULD ADD (0 tracks)`. -/
theorem C4_witness :
    (runModel envFind
      { listPath := "l.txt", playlistName := "P", dryRun := true }
      [⟨"A", "B"⟩]).1 = [] ∧
    processEntry envFind true none ⟨"A", "B"⟩ =
      ([], .ok (.wouldAdd 0, [])) := by
  have h := C4_dry_run envFind
    { listPath := "l.txt", playlistName := "P", dryRun := true }
    [⟨"A", "B"⟩] rfl
  refine ⟨h.1, ?_⟩
  have h3 := h.2.2 ⟨"A", "B"⟩ "alb1" [{ items := [], next := none }]
    (by decide) (by decide) (by decide) (by decide) (by decide)
  rw [h3]
  decide

/-! ## C6: track-page expansion -/

theorem getAlbumTracksGo_chained (pages : List AlbumTracksPage)
    (hch : chainedPages pages) :
    ∀ (fuel c : Nat), c < pages.length → pages.length - c ≤ fuel →
      getAlbumTracksGo pages fuel (some c) =
        (((pages.drop c).map (fun p => p.items)).flatten,
          pages.length - c) := by
  intro fuel
  induction fuel with
  | zero => intro c hc hf; omega
  | succ fuel ih =>
    intro c hc hf
    rw [getAlbumTracksGo]
    simp only [List.getElem?_eq_getElem hc, hch c hc]
    by_cases h1 : c + 1 < pages.length
    · rw [if_pos h1, ih (c + 1) h1 (by omega)]
      have hdrop : pages.drop c = pages[c] :: pages.drop (c + 1) :=
        (List.getElem_cons_drop pages c hc).symm
      rw [hdrop, List.map_cons, List.flatten_cons]
      simp only [Prod.mk.injEq]
      exact ⟨trivial, by omega⟩
    · rw [if_neg h1]
      have hnil : pages.drop (c + 1) = [] := by
        apply List.eq_nil_of_length_eq_zero
        rw [List.length_drop]; omega
      have hdrop : pages.drop c = [pages[c]] := by
        rw [← List.getElem_cons_drop pages c hc, hnil]
      rw [hdrop]
      simp only [getAlbumTracksGo, List.map_cons, List.map_nil,
        List.flatten_cons, List.flatten_nil, List.append_nil,
        Prod.mk.injEq]
      exact ⟨trivial, by omega⟩

theorem getAlbumTracks_chained (pages : List AlbumTracksPage)
    (hch : chainedPages pages) (hne : pages ≠ []) :
    getAlbumTracks pages =
      ((pages.map (fun p => p.items)).flatten, pages.length) := by
  have hpos : 0 < pages.length := List.length_pos.mpr hne
  have h := getAlbumTracksGo_chained pages hch pages.length 0 hpos (by omega)
  rw [getAlbumTracks, h]
  simp

theorem mkPagesGo_step (pageSize fuel : Nat) (l : List String) (i : Nat)
    (hf : fuel ≠ 0) (hgt : pageSize < l.length) :
    mkPagesGo pageSize fuel l i =
      { items := l.take pageSize, next := some (i + 1) } ::
        mkPagesGo pageSize (fuel - 1) (l.drop pageSize) (i + 1) := by
  cases fuel with
  | zero => exact absurd rfl hf
  | succ f => rw [mkPagesGo, if_neg (by omega)]; simp

theorem mkPagesGo_last (pageSize fuel : Nat) (l : List String) (i : Nat)
    (hf : fuel ≠ 0) (hle : l.length ≤ pageSize) :
    mkPagesGo pageSize fuel l i = [{ items := l, next := none }] := by
  cases fuel with
  | zero => exact absurd rfl hf
  | succ f => rw [mkPagesGo, if_pos hle]

theorem mkPages_130 (tracks : List String) (h : tracks.length = 130) :
    mkPages 50 tracks =
      [{ items := tracks.take 50, next := some 1 },
       { items := (tracks.drop 50).take 50, next := some 2 },
       { items := (tracks.drop 50).drop 50, next := none }] := by
  have h50 : (tracks.drop 50).length = 80 := by rw [List.length_drop, h]
  have h100 : ((tracks.drop 50).drop 50).length = 30 := by
    rw [List.length_drop, h50]
  rw [mkPages]
  rw [mkPagesGo_step 50 (tracks.length + 1) tracks 0 (by omega) (by omega)]
  simp only [Nat.add_sub_cancel]
  rw [mkPagesGo_step 50 tracks.length (tracks.drop 50) 1 (by omega) (by omega)]
  rw [mkPagesGo_last 50 (tracks.length - 1) ((tracks.drop 50).drop 50) 2
    (by omega) (by omega)]

/-- C6: over every forward-chained paginated response sequence,
`getAlbumTracks` follows the next-page cursor until it is `null` and returns
the concatenation of all pages' track identifiers in page and within-page
order, fetching each page exactly once; an album with 130 tracks served at
page size 50 yields exactly the 130 identifiers in order after exactly 3 page
fetches; an album with zero tracks (one page, no items) yields the empty
sequence. -/
theorem C6_track_expansion :
    (∀ pages : List AlbumTracksPage, chainedPages pages → pages ≠ [] →
      getAlbumTracks pages =
        ((pages.map (fun p => p.items)).flatten, pages.length)) ∧
    (∀ tracks : List String, tracks.length = 130 →
      getAlbumTracks (mkPages 50 tracks) = (tracks, 3)) ∧
    getAlbumTracks [{ items := [], next := none }] = ([], 1) := by
  refine ⟨getAlbumTracks_chained, ?_, by decide⟩
  intro tracks h
  rw [mkPages_130 tracks h]
  have hch : chainedPages
      [{ items := tracks.take 50, next := some 1 },
       { items := (tracks.drop 50).take 50, next := some 2 },
       { items := (tracks.drop 50).drop 50, next := none }] := by
    intro i hi
    simp only [List.length_cons, List.length_nil] at hi
    interval_cases i <;> simp
  rw [getAlbumTracks_chained _ hch (by simp)]
  simp only [List.map_cons, List.map_nil, List.flatten_cons, List.flatten_nil,
    List.append_nil, List.length_cons, List.length_nil, Prod.mk.injEq]
  rw [List.take_append_drop, List.take_append_drop]
  constructor <;> trivial

/-- Witness for C6 at concrete inputs: a two-page chained sequence
concatenates in order with 2 fetches, and a 130-track album at page size 50
expands to its 130 identifiers with 3 fetches. -/
theorem C6_witness :
    getAlbumTracks
        [{ items := ["a"], next := some 1 }, { items := ["b"], next := none }] =
      (["a", "b"], 2) ∧
    getAlbumTracks (mkPages 50 (List.replicate 130 "t")) =
      (List.replicate 130 "t", 3) := by
  constructor
  · have h := C6_track_expansion.1
      [{ items := ["a"], next := some 1 }, { items := ["b"], next := none }]
      (by decide) (by decide)
    simpa using h
  · exact C6_track_expansion.2.1 (List.replicate 130 "t")
      (by rw [List.length_replicate])

/-! ## C9: idempotence of the normalizer -/

theorem goodChar_ranges {c : Char} (h : goodChar c = true) :
    (97 ≤ c.toNat ∧ c.toNat ≤ 122) ∨ (48 ≤ c.toNat ∧ c.toNat ≤ 57) ∨
    c.toNat = 39 ∨ c.toNat = 45 := by
  simp [goodChar, isKeptChar, isJsSpace] at h
  omega

theorem goodChar_not_space {c : Char} (h : goodChar c = true) :
    isJsSpace c = false := by
  simp [goodChar] at h
  exact h.2

theorem stage_id_chars {c : Char} (h : goodChar c = true ∨ c = ' ') :
    jsToLower c = c ∧ ampExpand c = [c] ∧ replaceApos c = c ∧
    isKeptChar c = true := by
  have hn : (97 ≤ c.toNat ∧ c.toNat ≤ 122) ∨ (48 ≤ c.toNat ∧ c.toNat ≤ 57) ∨
      c.toNat = 39 ∨ c.toNat = 45 ∨ c.toNat = 32 := by
    rcases h with h | h
    · rcases goodChar_ranges h with h' | h' | h' | h' <;> simp [h']
    · subst h; right; right; right; right; rfl
  refine ⟨?_, ?_, ?_, ?_⟩
  · have hcond : ¬((65 ≤ c.toNat && c.toNat ≤ 90) = true) := by
      simp; omega
    simp [jsToLower, hcond]
  · have hne : c ≠ '&' := by
      intro he; subst he; revert hn; decide
    simp [ampExpand, hne]
  · have hne : c ≠ '’' := by
      intro he; subst he; revert hn; decide
    simp [replaceApos, hne]
  · simp [isKeptChar, isJsSpace]; omega

theorem map_id_of_mem {α : Type} (f : α → α) :
    ∀ l : List α, (∀ a ∈ l, f a = a) → l.map f = l := by
  intro l h
  induction l with
  | nil => rfl
  | cons a t ih =>
    rw [List.map_cons, h a (by simp), ih (fun x hx => h x (by simp [hx]))]

theorem flatMap_id_of_mem {α : Type} (f : α → List α) :
    ∀ l : List α, (∀ a ∈ l, f a = [a]) → l.flatMap f = l := by
  intro l h
  induction l with
  | nil => rfl
  | cons a t ih =>
    rw [List.flatMap_cons, h a (by simp),
      ih (fun x hx => h x (by simp [hx]))]
    rfl

theorem collapseWs_cons_of_not_space {d : Char} (rest : List Char)
    (hd : isJsSpace d = false) :
    collapseWs (d :: rest) = d :: collapseWs rest := by
  cases rest with
  | nil => simp [collapseWs, hd]
  | cons e t => simp [collapseWs, hd]

theorem collapseWs_mem {l : List Char} :
    ∀ c ∈ collapseWs l, (c ∈ l ∧ isJsSpace c = false) ∨ c = ' ' := by
  induction l using collapseWs.induct with
  | case1 => intro c hc; simp [collapseWs] at hc
  | case2 c hsp =>
    intro x hx
    simp [collapseWs, hsp] at hx
    right; exact hx
  | case3 c hsp =>
    intro x hx
    simp [collapseWs, hsp] at hx
    subst hx
    left
    exact ⟨by simp, by simpa using hsp⟩
  | case4 c d rest hc hd ih =>
    intro x hx
    rw [show collapseWs (c :: d :: rest) = collapseWs (d :: rest) by
      simp [collapseWs, hc, hd]] at hx
    rcases ih x hx with ⟨hm, hns⟩ | hsp
    · exact Or.inl ⟨by simp [hm], hns⟩
    · exact Or.inr hsp
  | case5 c d rest hc hd ih =>
    intro x hx
    rw [show collapseWs (c :: d :: rest) = ' ' :: collapseWs (d :: rest) by
      simp [collapseWs, hc, hd]] at hx
    rcases List.mem_cons.mp hx with hx | hx
    · exact Or.inr hx
    · rcases ih x hx with ⟨hm, hns⟩ | hsp
      · exact Or.inl ⟨by simp [hm], hns⟩
      · exact Or.inr hsp
  | case6 c d rest hc ih =>
    intro x hx
    rw [show collapseWs (c :: d :: rest) = c :: collapseWs (d :: rest) by
      simp [collapseWs, hc]] at hx
    rcases List.mem_cons.mp hx with hx | hx
    · subst hx
      exact Or.inl ⟨by simp, by simpa using hc⟩
    · rcases ih x hx with ⟨hm, hns⟩ | hsp
      · exact Or.inl ⟨by simp [hm], hns⟩
      · exact Or.inr hsp

theorem collapseWs_chain (l : List Char) :
    List.Chain' (fun a b => ¬(isJsSpace a = true ∧ isJsSpace b = true))
      (collapseWs l) := by
  induction l using collapseWs.induct with
  | case1 => simp [collapseWs]
  | case2 c hsp => simp [collapseWs, hsp]
  | case3 c hsp => simp [collapseWs, hsp]
  | case4 c d rest hc hd ih =>
    rw [show collapseWs (c :: d :: rest) = collapseWs (d :: rest) by
      simp [collapseWs, hc, hd]]
    exact ih
  | case5 c d rest hc hd ih =>
    have hd' : isJsSpace d = false := by simpa using hd
    rw [show collapseWs (c :: d :: rest) = ' ' :: collapseWs (d :: rest) by
      simp [collapseWs, hc, hd']]
    rw [List.chain'_cons']
    refine ⟨?_, ih⟩
    intro y hy
    rw [collapseWs_cons_of_not_space rest hd'] at hy
    simp at hy
    subst hy
    simp [hd']
  | case6 c d rest hc ih =>
    have hc' : isJsSpace c = false := by simpa using hc
    rw [show collapseWs (c :: d :: rest) = c :: collapseWs (d :: rest) by
      simp [collapseWs, hc']]
    rw [List.chain'_cons']
    refine ⟨?_, ih⟩
    intro y hy
    simp [hc']

theorem collapseWs_id (l : List Char)
    (hsp : ∀ c ∈ l, isJsSpace c = true → c = ' ')
    (hch : List.Chain' (fun a b => ¬(isJsSpace a = true ∧ isJsSpace b = true))
      l) :
    collapseWs l = l := by
  induction l with
  | nil => rfl
  | cons c t ih =>
    cases t with
    | nil =>
      by_cases h : isJsSpace c = true
      · have hcs := hsp c (by simp) h
        subst hcs
        simp [collapseWs, h]
      · simp [collapseWs, h]
    | cons d r =>
      rw [List.chain'_cons] at hch
      by_cases h : isJsSpace c = true
      · have hd : isJsSpace d = false := by
          cases hd : isJsSpace d with
          | false => rfl
          | true => exact absurd ⟨h, hd⟩ hch.1
        have hcs := hsp c (by simp) h
        subst hcs
        rw [show collapseWs (' ' :: d :: r) = ' ' :: collapseWs (d :: r) by
          simp [collapseWs, h, hd]]
        rw [ih (fun x hx hs => hsp x (by simp [hx]) hs) hch.2]
      · rw [show collapseWs (c :: d :: r) = c :: collapseWs (d :: r) by
          simp [collapseWs, h]]
        rw [ih (fun x hx hs => hsp x (by simp [hx]) hs) hch.2]

theorem chain_of_dropWhile {R : Char → Char → Prop} {p : Char → Bool}
    {l : List Char} (h : List.Chain' R l) :
    List.Chain' R (l.dropWhile p) :=
  h.suffix (List.dropWhile_suffix p)

theorem chain_of_reverse {l : List Char}
    (h : List.Chain' (fun a b => ¬(isJsSpace a = true ∧ isJsSpace b = true))
      l) :
    List.Chain' (fun a b => ¬(isJsSpace a = true ∧ isJsSpace b = true))
      l.reverse := by
  rw [List.chain'_reverse]
  exact h.imp (fun a b hab hba => hab ⟨hba.2, hba.1⟩)

theorem head_dropWhile_not {p : Char → Bool} :
    ∀ (l : List Char) (c : Char), (l.dropWhile p).head? = some c →
      p c = false := by
  intro l
  induction l with
  | nil => intro c hc; simp at hc
  | cons a t ih =>
    intro c hc
    rw [List.dropWhile_cons] at hc
    by_cases h : p a = true
    · rw [if_pos h] at hc
      exact ih c hc
    · rw [if_neg h] at hc
      simp at hc
      rw [← hc]
      simpa using h

theorem trimWs_subset {l : List Char} : ∀ c ∈ trimWs l, c ∈ l := by
  intro c hc
  unfold trimWs at hc
  rw [List.mem_reverse] at hc
  have h1 : c ∈ (l.dropWhile isJsSpace).reverse :=
    (List.dropWhile_suffix isJsSpace).sublist.subset hc
  rw [List.mem_reverse] at h1
  exact (List.dropWhile_suffix isJsSpace).sublist.subset h1

theorem dropWhile_append (p : Char → Bool) (u v : List Char) :
    (u ++ v).dropWhile p =
      if u.all p then v.dropWhile p else u.dropWhile p ++ v := by
  induction u with
  | nil => simp
  | cons a t ih =>
    by_cases h : p a = true
    · rw [List.cons_append, List.dropWhile_cons, if_pos h, ih,
        List.dropWhile_cons]
      simp [h]
    · rw [List.cons_append, List.dropWhile_cons, if_neg h]
      have : (a :: t).all p = false := by simp [List.all_cons]; intro hpa; exact absurd hpa h
      rw [this, if_neg (by simp), List.dropWhile_cons, if_neg h,
        List.cons_append]

theorem trimWs_head {l : List Char} :
    ∀ c, (trimWs l).head? = some c → isJsSpace c = false := by
  intro c hc
  unfold trimWs at hc
  cases hd : l.dropWhile isJsSpace with
  | nil => rw [hd] at hc; simp at hc
  | cons x t =>
    have hx : isJsSpace x = false :=
      head_dropWhile_not l x (by rw [hd]; rfl)
    rw [hd] at hc
    rw [show (x :: t).reverse = t.reverse ++ [x] by simp] at hc
    rw [dropWhile_append] at hc
    by_cases hall : t.reverse.all isJsSpace
    · rw [if_pos hall] at hc
      rw [show List.dropWhile isJsSpace [x] = [x] by
        rw [List.dropWhile_cons, if_neg (by simp [hx])]] at hc
      simp at hc
      rw [← hc]
      exact hx
    · rw [if_neg hall, List.reverse_append] at hc
      simp at hc
      rw [← hc]
      exact hx

theorem trimWs_last {l : List Char} :
    ∀ c, (trimWs l).getLast? = some c → isJsSpace c = false := by
  intro c hc
  unfold trimWs at hc
  rw [List.getLast?_reverse] at hc
  exact head_dropWhile_not _ c hc

theorem trimWs_id {l : List Char}
    (hh : ∀ c, l.head? = some c → isJsSpace c = false)
    (hl : ∀ c, l.getLast? = some c → isJsSpace c = false) :
    trimWs l = l := by
  have h1 : l.dropWhile isJsSpace = l := by
    cases l with
    | nil => rfl
    | cons a t => exact dropWhile_cons_of_neg (hh a rfl)
  unfold trimWs
  rw [h1]
  have h2 : l.reverse.dropWhile isJsSpace = l.reverse := by
    cases hr : l.reverse with
    | nil => rfl
    | cons a t =>
      apply dropWhile_cons_of_neg
      apply hl a
      rw [← List.head?_reverse, hr]
      rfl
  rw [h2, List.reverse_reverse]

theorem normalizeL_normal (l : List Char) : NormalOutput (normalizeL l) := by
  unfold normalizeL NormalOutput
  refine ⟨?_, ?_, trimWs_head, trimWs_last⟩
  · intro c hc
    have hc1 := trimWs_subset c hc
    rcases collapseWs_mem c hc1 with ⟨hmem, hns⟩ | hsp
    · left
      have hkept : isKeptChar c = true := List.of_mem_filter hmem
      simp [goodChar, hkept, hns]
    · right; exact hsp
  · exact chain_of_reverse (chain_of_dropWhile (chain_of_reverse
      (chain_of_dropWhile (collapseWs_chain _))))

theorem normalizeL_id {l : List Char} (h : NormalOutput l) :
    normalizeL l = l := by
  obtain ⟨halpha, hch, hh, hl⟩ := h
  have hstage : ∀ c ∈ l, jsToLower c = c ∧ ampExpand c = [c] ∧
      replaceApos c = c ∧ isKeptChar c = true :=
    fun c hc => stage_id_chars (halpha c hc)
  have h1 : l.map jsToLower = l :=
    map_id_of_mem _ l (fun c hc => (hstage c hc).1)
  have h2 : l.flatMap ampExpand = l :=
    flatMap_id_of_mem _ l (fun c hc => (hstage c hc).2.1)
  have h3 : l.map replaceApos = l :=
    map_id_of_mem _ l (fun c hc => (hstage c hc).2.2.1)
  have h4 : l.filter isKeptChar = l :=
    List.filter_eq_self.mpr (fun c hc => (hstage c hc).2.2.2)
  have hsp : ∀ c ∈ l, isJsSpace c = true → c = ' ' := by
    intro c hc hspace
    rcases halpha c hc with hg | hg
    · rw [goodChar_not_space hg] at hspace
      exact absurd hspace (by simp)
    · exact hg
  have h5 : collapseWs l = l := collapseWs_id l hsp hch
  have h6 : trimWs l = l := trimWs_id hh hl
  unfold normalizeL
  rw [h1, h2, h3, h4, h5, h6]

/-- C9: `normalize` is idempotent — applying it to its own output changes
nothing, for every string. -/
theorem C9_normalize_idempotent (s : String) :
    normalize (normalize s) = normalize s := by
  unfold normalize
  exact congrArg String.mk (normalizeL_id (normalizeL_normal s.data))

end SimplyPlaylists
